import Mathlib

/-!
Shallow embedding of the real-time auction bidding engine
(Backend/services/auctionService.js, Backend/socket/socketServer.js,
Backend/models/Auction & Bid, Frontend LiveBidding pages), together with
theorems settling the frozen claims about its specification.

Conventions of the embedding:
* Mongo ObjectIds, socket ids and auction ids are modelled as `Nat`
  (`0` plays the role of a JS-falsy id in validation guards).
* Dates are `Nat` millisecond clocks; every operation takes the server
  clock `now` explicitly where the source calls `new Date()`.
* Money amounts are `Nat` (the claims never depend on fractional cents).
* Mongo documents live in plain lists; `findByIdAndUpdate` is a map over
  the list keyed by id, `find().sort().limit()` is filter + sort + take.
-/

namespace Engine

/-- `status` enum of `AuctionSchema` in socketServer.js / models. -/
inductive Status
  | pending
  | active
  | completed
  | cancelled
deriving DecidableEq, Repr

/-- The fields of an `Auction` document that the modelled operations read
or write (product/display fields such as name, images, category are
irrelevant to every claim and are elided). -/
structure Auction where
  id : Nat
  startingBid : Nat
  currentBid : Nat
  currentBidder : Option Nat
  startBidTime : Nat
  endBidTime : Nat
  status : Status
  lastBidTime : Option Nat
  totalBids : Nat
  winningBid : Option Nat
  participants : Nat
deriving DecidableEq, Repr

/-- A `Bid` document (models/Bid.js). -/
structure Bid where
  id : Nat
  auction : Nat
  amount : Nat
  bidder : Nat
  bidderName : String
  timestamp : Nat
  isWinningBid : Bool
deriving DecidableEq, Repr

/-- `AuctionSchema.methods.hasEnded`: `new Date() > this.endBidTime`. -/
def Auction.hasEnded (a : Auction) (now : Nat) : Bool :=
  decide (now > a.endBidTime)

/-- `AuctionSchema.methods.updateStatus`: recomputes `status` from the
clock alone — `pending` before `startBidTime`, `completed` after
`endBidTime`, `active` in between; the previous status is not read. -/
def Auction.updateStatus (a : Auction) (now : Nat) : Auction :=
  if now < a.startBidTime then { a with status := Status.pending }
  else if now > a.endBidTime then { a with status := Status.completed }
  else { a with status := Status.active }

/-- `AuctionSchema.methods.recordBid`: overwrite currentBid / currentBidder
/ lastBidTime, bump totalBids, and if the auction has already ended mark
this bid winning and the auction completed. -/
def Auction.recordBid (a : Auction) (bidId amount userId now : Nat) : Auction :=
  let a' := { a with
    currentBid := amount
    currentBidder := some userId
    lastBidTime := some now
    totalBids := a.totalBids + 1 }
  if a'.hasEnded now then
    { a' with winningBid := some bidId, status := Status.completed }
  else a'

/-- The rejection reasons raised by `auctionService.placeBid` (thrown as
`Error` messages in the source: 'This auction has ended' and
'Bid amount must be higher than current bid of X'). -/
inductive BidReject
  | auctionEnded
  | bidTooLow (currentBid : Nat)
deriving DecidableEq, Repr

/-- `auctionService.placeBid` applied to an auction found in the store:
reject if `hasEnded()`, reject if `amount <= currentBid`, otherwise
create and save the `Bid` and run `recordBid` on the auction. -/
def placeBid (a : Auction) (amount userId : Nat) (bidderName : String)
    (now bidId : Nat) : Except BidReject (Bid × Auction) :=
  if a.hasEnded now then Except.error BidReject.auctionEnded
  else if amount ≤ a.currentBid then Except.error (BidReject.bidTooLow a.currentBid)
  else
    let bid : Bid := {
      id := bidId
      auction := a.id
      amount := amount
      bidder := userId
      bidderName := bidderName
      timestamp := now
      isWinningBid := false }
    Except.ok (bid, a.recordBid bid.id amount userId now)

/-- One bid submission in a sequence processed by the service commit path. -/
structure BidRequest where
  amount : Nat
  userId : Nat
  now : Nat
deriving DecidableEq, Repr

/-- Sequential processing of a list of bid submissions through
`auctionService.placeBid` (the per-auction single-writer discipline):
returns the final auction state and the accepted (persisted) bids in
commit order. -/
def processBids (a : Auction) : List BidRequest → Nat → Auction × List Bid
  | [], _ => (a, [])
  | r :: rest, nextId =>
    match placeBid a r.amount r.userId "Anonymous" r.now nextId with
    | Except.error _ => processBids a rest nextId
    | Except.ok (bid, a') =>
      let res := processBids a' rest (nextId + 1)
      (res.1, bid :: res.2)

/-- One entry of a bid-history view (`{ amount, bidder, timestamp }`
objects built by the socket server; `bidder` is the display name). -/
structure HistEntry where
  amount : Nat
  bidder : String
  timestamp : Nat
deriving DecidableEq, Repr

/-- One value of the in-memory `auctionData` cache map. -/
structure CacheEntry where
  currentBid : Option Nat
  bidder : Option Nat
  lastUpdated : Option Nat
  bidHistory : List HistEntry
deriving DecidableEq, Repr

/-- The server-side state the `auction:bid` handler touches: the
persistent store (auctions + bids collections) and the in-memory
`auctionData` cache (an association list keyed by auction id). -/
structure ServerState where
  auctions : List Auction
  bids : List Bid
  cache : List (Nat × CacheEntry)
deriving DecidableEq, Repr

/-- `Map.set` on an association list: replace the first binding of the
key, or append a fresh binding. -/
def alSet {α : Type} (k : Nat) (v : α) : List (Nat × α) → List (Nat × α)
  | [] => [(k, v)]
  | p :: rest => if p.1 = k then (k, v) :: rest else p :: alSet k v rest

/-- `Map.get` on an association list. -/
def alGet {α : Type} (m : List (Nat × α)) (k : Nat) : Option α :=
  (m.find? (fun p => p.1 == k)).map (fun p => p.2)

/-- `Map.delete` on an association list. -/
def alDel {α : Type} (k : Nat) (m : List (Nat × α)) : List (Nat × α) :=
  m.filter (fun p => p.1 ≠ k)

/-- The cache-history trim in the `auction:bid` handler:
`bidHistory.unshift(entry)` followed by
`if (length > 50) bidHistory = bidHistory.slice(0, 50)`. -/
def cachePushHistory (e : HistEntry) (h : List HistEntry) : List HistEntry :=
  let h' := e :: h
  if h'.length > 50 then h'.take 50 else h'

/-- The `auction:bid` event payload broadcast to the room and spread into
the acknowledgment (`bidData` in the handler). -/
structure BidEventData where
  auctionId : Nat
  amount : Nat
  userId : Nat
  timestamp : Nat
deriving DecidableEq, Repr

/-- Failure injection for the two durable writes of the `auction:bid`
handler: everything succeeds, `newBid.save()` throws, or
`Auction.findByIdAndUpdate` throws (`msg` is the thrown error message). -/
inductive StoreFailure
  | ok
  | bidSave (msg : String)
  | auctionUpdate (msg : String)
deriving DecidableEq, Repr

/-- Result of one `auction:bid` round: resulting server state, the bid
event broadcast to the room (if any), and the acknowledgment callback
payload (`success` flag plus `error` string). -/
structure SocketBidOutcome where
  state : ServerState
  broadcast : Option BidEventData
  ackSuccess : Bool
  ackError : Option String
deriving DecidableEq, Repr

/-- The `auction:bid` handler of socketServer.js. Faithful step order:
falsy-input validation; `newBid.save()`; `Auction.findByIdAndUpdate`
overwriting currentBid/currentBidder/lastBidTime (a missing auction only
logs a warning and continues); `auctionData` cache update (a fresh cache
entry starts with an empty history; an existing one gets the new entry
unshifted and trimmed to 50); broadcast of the bid event; acknowledgment.
No BidTooLow / AuctionEnded check appears anywhere on this path.
`tsClient` is the client-supplied `timestamp` field (`timestamp || new
Date()` in the source). -/
def handleAuctionBid (s : ServerState) (auctionId amount userId : Nat)
    (bidderName : String) (tsClient : Option Nat) (now bidId : Nat)
    (fail : StoreFailure) : SocketBidOutcome :=
  if auctionId = 0 ∨ amount = 0 ∨ userId = 0 then
    { state := s, broadcast := none, ackSuccess := false,
      ackError := some "Invalid bid data" }
  else
    match fail with
    | StoreFailure.bidSave msg =>
      { state := s, broadcast := none, ackSuccess := false,
        ackError := some (if msg = "" then "Failed to save bid" else msg) }
    | StoreFailure.auctionUpdate msg =>
      let ts := tsClient.getD now
      let newBid : Bid := {
        id := bidId, auction := auctionId, amount := amount, bidder := userId,
        bidderName := bidderName, timestamp := ts, isWinningBid := false }
      { state := { s with bids := s.bids ++ [newBid] }, broadcast := none,
        ackSuccess := false,
        ackError := some (if msg = "" then "Failed to save bid" else msg) }
    | StoreFailure.ok =>
      let ts := tsClient.getD now
      let newBid : Bid := {
        id := bidId, auction := auctionId, amount := amount, bidder := userId,
        bidderName := bidderName, timestamp := ts, isWinningBid := false }
      let s₁ : ServerState := { s with bids := s.bids ++ [newBid] }
      let s₂ : ServerState := { s₁ with auctions := s₁.auctions.map (fun a =>
        if a.id = auctionId then
          { a with currentBid := amount, currentBidder := some userId,
                   lastBidTime := some ts }
        else a) }
      let cache' :=
        match alGet s₂.cache auctionId with
        | none =>
          alSet auctionId
            { currentBid := some amount, bidder := some userId,
              lastUpdated := some ts, bidHistory := [] } s₂.cache
        | some e =>
          alSet auctionId
            { currentBid := some amount, bidder := some userId,
              lastUpdated := some ts,
              bidHistory := cachePushHistory
                { amount := amount, bidder := bidderName, timestamp := ts }
                e.bidHistory } s₂.cache
      let ev : BidEventData :=
        { auctionId := auctionId, amount := amount, userId := userId, timestamp := ts }
      { state := { s₂ with cache := cache' }, broadcast := some ev,
        ackSuccess := true, ackError := none }

/-- 'b is no older than c': the descending-timestamp order used by every
`sort({ timestamp: -1 })` query. -/
def tsGe (b c : Bid) : Prop := c.timestamp ≤ b.timestamp

instance : DecidableRel tsGe := fun b c => Nat.decLe c.timestamp b.timestamp

instance : IsTotal Bid tsGe :=
  ⟨fun b c => (Nat.le_total c.timestamp b.timestamp).imp (fun h => h) (fun h => h)⟩

instance : IsTrans Bid tsGe :=
  ⟨fun _ _ _ h₁ h₂ => Nat.le_trans h₂ h₁⟩

/-- Same order on formatted history entries. -/
def histTsGe (b c : HistEntry) : Prop := c.timestamp ≤ b.timestamp

/-- `Bid.find({ auction: auctionId })`. -/
def bidsForAuction (bids : List Bid) (auctionId : Nat) : List Bid :=
  bids.filter (fun b => b.auction == auctionId)

/-- `Bid.find({ auction }).sort({ timestamp: -1 }).limit(50)` — the query
shared by `auction:getState`, `broadcastAuctionState` and
`auctionService.getAuctionWithBids`. -/
def recentBidsView (bids : List Bid) (auctionId : Nat) : List Bid :=
  (List.insertionSort tsGe (bidsForAuction bids auctionId)).take 50

/-- `bid => ({ amount, bidder: bid.bidderName || 'Anonymous', timestamp })`. -/
def toHist (b : Bid) : HistEntry :=
  { amount := b.amount, bidder := b.bidderName, timestamp := b.timestamp }

/-- The bid history assembled by `broadcastAuctionState` (and by the
database branch of `auction:getState`). -/
def broadcastBidHistory (bids : List Bid) (auctionId : Nat) : List HistEntry :=
  (recentBidsView bids auctionId).map toHist

/-- The history the `auction:getState` acknowledgment carries:
`bidHistory.length > 0 ? bidHistory : (cachedData?.bidHistory || [])`. -/
def getStateBidHistory (bids : List Bid) (auctionId : Nat)
    (cached : List HistEntry) : List HistEntry :=
  let v := broadcastBidHistory bids auctionId
  if v.length > 0 then v else cached

/-- `auctionService.getAuctionWithBids` (for an auction present in the
store): returns the auction after `updateStatus()` + `save()` and the 50
most recent bids, newest first. -/
def getAuctionWithBids (a : Auction) (bids : List Bid) (now : Nat) :
    Auction × List Bid :=
  (a.updateStatus now, recentBidsView bids a.id)

/-- The persistent store swept by the Lifecycle Scheduler. -/
structure Store where
  auctions : List Auction
  bids : List Bid
deriving DecidableEq, Repr

/-- The sweep's match condition:
`Auction.find({ status: 'active', endBidTime: { $lt: now } })`. -/
def auctionMatched (now : Nat) (a : Auction) : Bool :=
  a.status == Status.active && decide (a.endBidTime < now)

/-- Keep the better of an accumulated candidate and the next bid (strict
comparison on amount, first-seen wins ties). -/
def selBetter (acc : Option Bid) (b : Bid) : Option Bid :=
  match acc with
  | none => some b
  | some m => if b.amount > m.amount then some b else acc

/-- `Bid.findOne({ auction: auction._id }).sort({ amount: -1 })`: some bid
of maximal amount for the auction (first such in collection order), or
none when the auction has no bids. -/
def highestBid (bids : List Bid) (auctionId : Nat) : Option Bid :=
  (bidsForAuction bids auctionId).foldl selBetter none

/-- The closed form of a matched auction saved by the sweep: status set to
completed, and `winningBid` set to the highest bid's id when one exists
(left untouched — hence still null for a zero-bid auction). -/
def closedAuction (st : Store) (a : Auction) : Auction :=
  match highestBid st.bids a.id with
  | none => { a with status := Status.completed }
  | some hb => { a with status := Status.completed, winningBid := some hb.id }

/-- One iteration of the `closeEndedAuctions` loop for a matched auction
`a`: save the closed auction, and when a highest bid exists flag that bid
`isWinningBid`; both saves are keyed writes by id. -/
def closeStep (st : Store) (a : Auction) : Store :=
  { auctions := st.auctions.map (fun x =>
      if x.id = a.id then closedAuction st a else x),
    bids :=
      match highestBid st.bids a.id with
      | none => st.bids
      | some hb => st.bids.map (fun b =>
          if b.id = hb.id then { b with isWinningBid := true } else b) }

/-- `auctionService.closeEndedAuctions`: find the active auctions whose
`endBidTime` is strictly before `now`, close each one in turn, and return
the updated store together with `closedCount`. -/
def closeEndedAuctions (s : Store) (now : Nat) : Store × Nat :=
  let matched := s.auctions.filter (auctionMatched now)
  (matched.foldl closeStep s, matched.length)

/-- A bid transformation that changes no field the sweep's highest-bid
query reads (id, auction, amount); flagging `isWinningBid` is one. -/
def FieldPres (f : Bid → Bid) : Prop :=
  ∀ b : Bid, (f b).id = b.id ∧ (f b).auction = b.auction ∧ (f b).amount = b.amount

/-- A client-side bid history entry
(`{ amount, bidder, timestamp }` in LiveBidding.tsx). -/
structure ClientBidEntry where
  amount : Nat
  bidder : String
  timestamp : Nat
deriving DecidableEq, Repr

/-- marketplace/LiveBidding.tsx `handleBid` (the `auction:bid` listener),
restricted to its bid-history effect: if the event targets the viewed
auction, prepend it to `bidHistory` — there is no duplicate check. -/
def mpHandleBid (viewId evAuctionId : Nat) (e : ClientBidEntry)
    (hist : List ClientBidEntry) : List ClientBidEntry :=
  if evAuctionId ≠ viewId then hist else e :: hist

/-- farmer/LiveBidding.tsx `auction:stateUpdate` handler, bid-history
effect: guarded by `if (bidHistory && bidHistory.length > 0)` — when the
snapshot carries a non-empty history, `recentBids := bidHistory.slice(0,
5)` discards the previous local list (`old`) wholesale; an empty
snapshot history leaves the local list untouched. -/
def farmerApplySnapshot (snapshot old : List ClientBidEntry) :
    List ClientBidEntry :=
  if snapshot.length > 0 then snapshot.take 5 else old

/-- One farmer-dashboard bid notification. -/
structure BidNotification where
  productId : Nat
  productName : String
  bidder : String
  amount : Nat
  timestamp : Nat
  seen : Bool
deriving DecidableEq, Repr

/-- farmer/LiveBidding.tsx snapshot-sync path `setBidNotifications`:
skip if a notification with the same productId, amount and bidder whose
timestamp is within 5000 ms is already present, else prepend and keep the
10 most recent. -/
def addSyncNotification (auctionId : Nat) (productName : String)
    (latest : ClientBidEntry) (prev : List BidNotification) :
    List BidNotification :=
  let alreadyExists := prev.any (fun n =>
    n.productId == auctionId && n.amount == latest.amount &&
    n.bidder == latest.bidder &&
    decide (Nat.dist n.timestamp latest.timestamp < 5000))
  if alreadyExists then prev
  else
    ({ productId := auctionId, productName := productName,
       bidder := latest.bidder, amount := latest.amount,
       timestamp := latest.timestamp, seen := false } :: prev).take 10

/-- The slice of local client state `handlePlaceBid` manipulates:
the product's current bid and the local bid history. -/
structure ClientView where
  currentBid : Nat
  bidHistory : List ClientBidEntry
deriving DecidableEq, Repr

/-- marketplace/LiveBidding.tsx `handleBid` full effect on the view:
prepend the event to the history and overwrite the product's currentBid
with the event's amount. -/
def mpHandleBidView (viewId evAuctionId : Nat) (e : ClientBidEntry)
    (v : ClientView) : ClientView :=
  if evAuctionId ≠ viewId then v
  else { currentBid := e.amount, bidHistory := e :: v.bidHistory }

/-- marketplace/LiveBidding.tsx `handlePlaceBid` optimistic apply: set the
product's currentBid to the submitted amount and prepend the new entry to
the history, before any acknowledgment arrives. -/
def optimisticApply (v : ClientView) (bidAmount : Nat) (userName : String)
    (now : Nat) : ClientView :=
  { currentBid := bidAmount,
    bidHistory :=
      { amount := bidAmount, bidder := userName, timestamp := now } :: v.bidHistory }

/-- marketplace/LiveBidding.tsx `handlePlaceBid` failure / error branch:
`setProduct(product)` restores the product captured before submission and
`setBidHistory(prev => prev.filter((bid, index) => index > 0))` drops the
entry at index 0 of whatever the history is at rollback time. No snapshot
is requested on this path. -/
def failureRollback (captured current : ClientView) : ClientView :=
  { currentBid := captured.currentBid,
    bidHistory := current.bidHistory.drop 1 }

/-- The room-membership state of the socket server: `connectedUsers`
(socket id to the auction rooms the user tracked), `auctionRooms`
(auction id to the member socket-id set) and the persisted
`participants` count per auction. The `auction:` room-name prefix is
elided: it is a fixed invertible tag around the auction id. -/
structure RoomsState where
  users : List (Nat × List Nat)
  rooms : List (Nat × List Nat)
  db : List (Nat × Nat)
deriving DecidableEq, Repr

/-- `Set.add` on a membership list. -/
def addMem (x : Nat) (l : List Nat) : List Nat :=
  if x ∈ l then l else l ++ [x]

/-- The `connectedUsers` update of `auction:join`: push the room onto the
user's tracked list when absent. -/
def userRoomsAfterJoin (s : RoomsState) (c a : Nat) : List (Nat × List Nat) :=
  match alGet s.users c with
  | none => s.users
  | some rs => alSet c (if a ∈ rs then rs else rs ++ [a]) s.users

/-- `auction:join` handler, membership effect: track the room on the
user, add the socket to the auction's member set, and persist the set's
size as the participant count; returns the state and the count passed to
the acknowledgment. -/
def joinRoom (s : RoomsState) (c a : Nat) : RoomsState × Nat :=
  ({ users := userRoomsAfterJoin s c a,
     rooms := alSet a (addMem c ((alGet s.rooms a).getD [])) s.rooms,
     db := alSet a (addMem c ((alGet s.rooms a).getD [])).length s.db },
   (addMem c ((alGet s.rooms a).getD [])).length)

/-- The `connectedUsers` update of `auction:leave`: filter the room out
of the user's tracked list. -/
def userRoomsAfterLeave (s : RoomsState) (c a : Nat) : List (Nat × List Nat) :=
  match alGet s.users c with
  | none => s.users
  | some rs => alSet c (rs.filter (fun r => r ≠ a)) s.users

/-- `auction:leave` handler, membership effect: drop the room from the
user's list; if the auction has a room, delete the socket from it,
persist the new size, and tear the room down when it reaches zero. -/
def leaveRoom (s : RoomsState) (c a : Nat) : RoomsState :=
  match alGet s.rooms a with
  | none => { s with users := userRoomsAfterLeave s c a }
  | some members =>
    if (members.filter (fun m => m ≠ c)).length = 0 then
      { users := userRoomsAfterLeave s c a,
        rooms := alDel a s.rooms,
        db := alSet a (members.filter (fun m => m ≠ c)).length s.db }
    else
      { users := userRoomsAfterLeave s c a,
        rooms := alSet a (members.filter (fun m => m ≠ c)) s.rooms,
        db := alSet a (members.filter (fun m => m ≠ c)).length s.db }

/-- One room cleanup step of the `disconnect` handler. -/
def disconnectStep (c : Nat) (st : RoomsState) (a : Nat) : RoomsState :=
  match alGet st.rooms a with
  | none => st
  | some members =>
    if (members.filter (fun m => m ≠ c)).length = 0 then
      { st with rooms := alDel a st.rooms,
                db := alSet a (members.filter (fun m => m ≠ c)).length st.db }
    else
      { st with rooms := alSet a (members.filter (fun m => m ≠ c)) st.rooms,
                db := alSet a (members.filter (fun m => m ≠ c)).length st.db }

/-- `disconnect` handler: read the user's room list, remove the user from
`connectedUsers`, then remove the socket from every one of those rooms,
persisting each new count (a raw transport disconnect, no explicit
leave). -/
def disconnectUser (s : RoomsState) (c : Nat) : RoomsState :=
  let userRooms := (alGet s.users c).getD []
  userRooms.foldl (disconnectStep c) { s with users := alDel c s.users }

/-! ### Concrete fixtures used by counterexamples and witnesses -/

/-- A live auction whose current bid is 10. -/
def demoAuction : Auction :=
  { id := 1, startingBid := 10, currentBid := 10, currentBidder := some 3,
    startBidTime := 0, endBidTime := 1000, status := Status.active,
    lastBidTime := some 100, totalBids := 1, winningBid := none,
    participants := 2 }

/-- The committed bid that set `demoAuction.currentBid`. -/
def demoBid0 : Bid :=
  { id := 50, auction := 1, amount := 10, bidder := 3, bidderName := "Carol",
    timestamp := 100, isWinningBid := false }

/-- Server state holding `demoAuction` and its one committed bid. -/
def demoServer : ServerState :=
  { auctions := [demoAuction], bids := [demoBid0], cache := [] }

/-- An auction whose `endBidTime` (100) is already in the past at clock
200. -/
def endedAuction : Auction :=
  { id := 2, startingBid := 10, currentBid := 10, currentBidder := some 3,
    startBidTime := 0, endBidTime := 100, status := Status.active,
    lastBidTime := some 50, totalBids := 1, winningBid := none,
    participants := 0 }

/-- Server state holding only `endedAuction`. -/
def endedServer : ServerState :=
  { auctions := [endedAuction], bids := [], cache := [] }

/-- A freshly opened auction with no bids. -/
def freshAuction : Auction :=
  { id := 3, startingBid := 0, currentBid := 0, currentBidder := none,
    startBidTime := 0, endBidTime := 1000, status := Status.active,
    lastBidTime := none, totalBids := 0, winningBid := none,
    participants := 0 }

/-- Server state holding only `freshAuction`. -/
def freshServer : ServerState :=
  { auctions := [freshAuction], bids := [], cache := [] }

/-- A cancelled auction whose time window (0..1000) is still open. -/
def cancelledAuction : Auction :=
  { id := 4, startingBid := 10, currentBid := 12, currentBidder := some 3,
    startBidTime := 0, endBidTime := 1000, status := Status.cancelled,
    lastBidTime := some 100, totalBids := 1, winningBid := none,
    participants := 0 }

/-- A live bid event as the marketplace client receives it. -/
def demoEvent : ClientBidEntry :=
  { amount := 15, bidder := "Other", timestamp := 700 }

/-- The optimistic history entry a user's own submission prepends. -/
def demoOptimistic : ClientBidEntry :=
  { amount := 12, bidder := "Me", timestamp := 600 }

/-- Persistent store holding `demoAuction` and its bid. -/
def demoStore : Store :=
  { auctions := [demoAuction], bids := [demoBid0] }

/-- A committed bid of 8 on `endedAuction`. -/
def endedBid1 : Bid :=
  { id := 60, auction := 2, amount := 8, bidder := 5, bidderName := "Dan",
    timestamp := 40, isWinningBid := false }

/-- A committed bid of 10 on `endedAuction` — its highest. -/
def endedBid2 : Bid :=
  { id := 61, auction := 2, amount := 10, bidder := 3, bidderName := "Carol",
    timestamp := 50, isWinningBid := false }

/-- Store with one expired active auction (with two bids) and one still
open active auction, as a Lifecycle Scheduler sweep at clock 200 sees
it. -/
def sweepStore : Store :=
  { auctions := [endedAuction, demoAuction], bids := [endedBid1, endedBid2, demoBid0] }

/-- A formatted history entry, as cached by the bid handler. -/
def demoHist : HistEntry :=
  { amount := 12, bidder := "Bob", timestamp := 490 }

/-- Room-membership state: connection 7 watches auctions 1 and 2
(room 1 also holds connection 9), with participant counts persisted. -/
def demoRooms : RoomsState :=
  { users := [(7, [1, 2])],
    rooms := [(1, [7, 9]), (2, [7])],
    db := [(1, 2), (2, 1)] }

/-! ### Theorems -/

/-- C1: on the service commit path (`auctionService.placeBid`) a bid whose
amount equals the current bid is rejected as too low (strict `>`
required), but the socket `auction:bid` handler — the actual commit
entry point for socket bids — performs no such check: at the same server
state it persists the tie bid, overwrites `currentBidder`, and
acknowledges success. The code contradicts the claim on the socket
path. -/
theorem placeBid_rejects_tie_but_socket_handler_commits :
    placeBid demoAuction 10 7 "Bob" 500 99 =
      Except.error (BidReject.bidTooLow 10) ∧
    (handleAuctionBid demoServer 1 10 7 "Bob" (some 490) 500 99
        StoreFailure.ok).ackSuccess = true ∧
    (handleAuctionBid demoServer 1 10 7 "Bob" (some 490) 500 99
        StoreFailure.ok).state.bids =
      demoServer.bids ++
        [{ id := 99, auction := 1, amount := 10, bidder := 7,
           bidderName := "Bob", timestamp := 490, isWinningBid := false }] ∧
    (handleAuctionBid demoServer 1 10 7 "Bob" (some 490) 500 99
        StoreFailure.ok).state.auctions.map Auction.currentBidder = [some 7] :=
  ⟨rfl, by decide, by decide, by decide⟩

/-- C2: two bids of 10 then 5 submitted through the socket `auction:bid`
handler are both persisted (no validation), so the persisted amounts
[10, 5] are not strictly increasing and the auction's final `currentBid`
is 5 — the last, not the maximum, persisted amount. The service path
(`processBids` via `placeBid`) would have rejected the second bid. -/
theorem socket_handler_accepts_decreasing_bids :
    (handleAuctionBid
        (handleAuctionBid freshServer 3 10 7 "A" (some 10) 10 101
          StoreFailure.ok).state
        3 5 8 "B" (some 20) 20 102 StoreFailure.ok).state.bids.map Bid.amount
      = [10, 5] ∧
    (handleAuctionBid
        (handleAuctionBid freshServer 3 10 7 "A" (some 10) 10 101
          StoreFailure.ok).state
        3 5 8 "B" (some 20) 20 102
        StoreFailure.ok).state.auctions.map Auction.currentBid = [5] ∧
    (processBids freshAuction
        [{ amount := 10, userId := 7, now := 10 },
         { amount := 5, userId := 8, now := 20 }] 101).2.map Bid.amount
      = [10] := by
  decide

/-- C3: the service commit path rejects a bid on an auction whose
persisted `endBidTime` (100) is before the server clock (200), but the
socket `auction:bid` handler performs no ended check at all: it persists
the late bid and acknowledges success. -/
theorem placeBid_rejects_ended_but_socket_handler_commits :
    placeBid endedAuction 20 7 "Bob" 200 99 =
      Except.error BidReject.auctionEnded ∧
    endedAuction.hasEnded 200 = true ∧
    (handleAuctionBid endedServer 2 20 7 "Bob" (some 190) 200 99
        StoreFailure.ok).ackSuccess = true ∧
    (handleAuctionBid endedServer 2 20 7 "Bob" (some 190) 200 99
        StoreFailure.ok).state.bids.map Bid.amount = [20] :=
  ⟨rfl, by decide, by decide, by decide⟩

/-- C4 counterexample: the marketplace live-bid listener has no duplicate
check — delivering the same `auction:bid` event twice prepends it twice,
so applying the event twice does not equal applying it once. -/
theorem duplicate_live_event_duplicates_history :
    mpHandleBid 1 1 demoEvent (mpHandleBid 1 1 demoEvent []) =
      [demoEvent, demoEvent] ∧
    mpHandleBid 1 1 demoEvent (mpHandleBid 1 1 demoEvent []) ≠
      mpHandleBid 1 1 demoEvent [] := by
  decide

/-- C4 amended: a snapshot carrying a non-empty history replaces the
local list wholesale (`farmerApplySnapshot` discards the previous list
entirely) while an empty snapshot history leaves the local list
untouched (the handler's `bidHistory.length > 0` guard), and the farmer
snapshot-sync notification path deduplicates by (productId, amount,
bidder, timestamp within 5000 ms) — applying it twice equals applying it
once — but the live bid listener (`mpHandleBid`) prepends
unconditionally, with no deduplication. -/
theorem snapshot_replaces_and_sync_dedups_but_live_append_is_blind :
    (∀ (snapshot old old' : List ClientBidEntry), snapshot ≠ [] →
      farmerApplySnapshot snapshot old = farmerApplySnapshot snapshot old' ∧
      farmerApplySnapshot snapshot old = snapshot.take 5) ∧
    (∀ old : List ClientBidEntry, farmerApplySnapshot [] old = old) ∧
    (∀ (a : Nat) (pn : String) (latest : ClientBidEntry)
        (prev : List BidNotification),
      addSyncNotification a pn latest (addSyncNotification a pn latest prev) =
        addSyncNotification a pn latest prev) ∧
    (∀ (viewId : Nat) (e : ClientBidEntry) (h : List ClientBidEntry),
      mpHandleBid viewId viewId e h = e :: h) := by
  refine ⟨?_, fun old => rfl, ?_, ?_⟩
  · intro snapshot old old' hne
    have hpos : snapshot.length > 0 := List.length_pos.mpr hne
    unfold farmerApplySnapshot
    rw [if_pos hpos, if_pos hpos]
    exact ⟨rfl, rfl⟩
  · intro a pn latest prev
    unfold addSyncNotification
    by_cases h : prev.any (fun n =>
      n.productId == a && n.amount == latest.amount &&
      n.bidder == latest.bidder &&
      decide (Nat.dist n.timestamp latest.timestamp < 5000))
    · simp only [h, if_true]
    · simp only [h, if_false, Bool.false_eq_true, ite_false, List.take_succ_cons,
        List.any_cons, beq_self_eq_true, Bool.and_self, Nat.dist_self]
      simp
  · intro viewId e h
    simp [mpHandleBid]

/-- C4 witness: the amended merge rule evaluated at a one-element
snapshot over differing local lists, an empty snapshot over a non-empty
local list, the sync dedup applied twice at a concrete notification, and
a concrete live-event prepend. -/
theorem snapshot_merge_rule_witness :
    (farmerApplySnapshot [demoEvent] [demoOptimistic] =
       farmerApplySnapshot [demoEvent] [] ∧
     farmerApplySnapshot [demoEvent] [demoOptimistic] = [demoEvent].take 5) ∧
    farmerApplySnapshot [] [demoOptimistic] = [demoOptimistic] ∧
    addSyncNotification 1 "Tomatoes" demoEvent
        (addSyncNotification 1 "Tomatoes" demoEvent []) =
      addSyncNotification 1 "Tomatoes" demoEvent [] ∧
    mpHandleBid 1 1 demoEvent [demoOptimistic] = demoEvent :: [demoOptimistic] :=
  ⟨snapshot_replaces_and_sync_dedups_but_live_append_is_blind.1 [demoEvent]
      [demoOptimistic] [] (by decide),
   snapshot_replaces_and_sync_dedups_but_live_append_is_blind.2.1 [demoOptimistic],
   snapshot_replaces_and_sync_dedups_but_live_append_is_blind.2.2.1 1 "Tomatoes"
      demoEvent [],
   snapshot_replaces_and_sync_dedups_but_live_append_is_blind.2.2.2 1 demoEvent
      [demoOptimistic]⟩

/-- C5 counterexample: when the bid record saves but the subsequent
auction-field update throws, the handler reports failure, leaves cache
and auctions untouched and broadcasts nothing — yet the Bid record is
already persisted, so the commit is not atomic and state is not "as
before the submission". -/
theorem bid_persists_when_auction_update_fails :
    (handleAuctionBid demoServer 1 12 7 "Bob" (some 490) 500 99
        (StoreFailure.auctionUpdate "db down")).ackSuccess = false ∧
    (handleAuctionBid demoServer 1 12 7 "Bob" (some 490) 500 99
        (StoreFailure.auctionUpdate "db down")).ackError = some "db down" ∧
    (handleAuctionBid demoServer 1 12 7 "Bob" (some 490) 500 99
        (StoreFailure.auctionUpdate "db down")).broadcast = none ∧
    (handleAuctionBid demoServer 1 12 7 "Bob" (some 490) 500 99
        (StoreFailure.auctionUpdate "db down")).state.auctions =
      demoServer.auctions ∧
    (handleAuctionBid demoServer 1 12 7 "Bob" (some 490) 500 99
        (StoreFailure.auctionUpdate "db down")).state.cache =
      demoServer.cache ∧
    (handleAuctionBid demoServer 1 12 7 "Bob" (some 490) 500 99
        (StoreFailure.auctionUpdate "db down")).state.bids ≠
      demoServer.bids := by
  decide

/-- C5 amended: for any valid submission, if saving the Bid record fails
the whole state is untouched, nothing is broadcast, and the callback
carries failure plus the error; if instead the auction-field update
fails, the same holds except that the already-saved Bid record remains
appended to the store — the error is still surfaced, the cache untouched
and no broadcast occurs, but the commit is not atomic across the two
writes. -/
theorem persistence_failure_semantics_of_socket_bid
    (s : ServerState) (auctionId amount userId : Nat) (name : String)
    (ts : Option Nat) (now bidId : Nat) (msg : String)
    (ha : auctionId ≠ 0) (hm : amount ≠ 0) (hu : userId ≠ 0) :
    handleAuctionBid s auctionId amount userId name ts now bidId
        (StoreFailure.bidSave msg) =
      { state := s, broadcast := none, ackSuccess := false,
        ackError := some (if msg = "" then "Failed to save bid" else msg) } ∧
    handleAuctionBid s auctionId amount userId name ts now bidId
        (StoreFailure.auctionUpdate msg) =
      { state := { s with bids := s.bids ++
          [{ id := bidId, auction := auctionId, amount := amount,
             bidder := userId, bidderName := name, timestamp := ts.getD now,
             isWinningBid := false }] },
        broadcast := none, ackSuccess := false,
        ackError := some (if msg = "" then "Failed to save bid" else msg) } := by
  constructor <;> simp [handleAuctionBid, ha, hm, hu]

/-- C5 witness: the amended failure semantics evaluated at a concrete
submission against `demoServer`. -/
theorem persistence_failure_semantics_witness :
    handleAuctionBid demoServer 1 12 7 "Bob" (some 490) 500 99
        (StoreFailure.bidSave "db down") =
      { state := demoServer, broadcast := none, ackSuccess := false,
        ackError := some (if "db down" = "" then "Failed to save bid" else "db down") } ∧
    handleAuctionBid demoServer 1 12 7 "Bob" (some 490) 500 99
        (StoreFailure.auctionUpdate "db down") =
      { state := { demoServer with bids := demoServer.bids ++
          [{ id := 99, auction := 1, amount := 12, bidder := 7,
             bidderName := "Bob", timestamp := (some 490).getD 500,
             isWinningBid := false }] },
        broadcast := none, ackSuccess := false,
        ackError := some (if "db down" = "" then "Failed to save bid" else "db down") } :=
  persistence_failure_semantics_of_socket_bid demoServer 1 12 7 "Bob"
    (some 490) 500 99 "db down" (by decide) (by decide) (by decide)

/-- C7 counterexample: a live bid event arrives between the optimistic
apply and the failure rollback; the rollback restores the captured
product and drops the head history entry, so the committed live event is
deleted while the rejected optimistic bid stays in the history — no
snapshot re-pull rebuilds the state. -/
theorem rollback_drops_interleaved_live_event :
    failureRollback { currentBid := 10, bidHistory := [] }
        (mpHandleBidView 1 1 demoEvent
          (optimisticApply { currentBid := 10, bidHistory := [] } 12 "Me" 600)) =
      { currentBid := 10, bidHistory := [demoOptimistic] } ∧
    (failureRollback { currentBid := 10, bidHistory := [] }
        (mpHandleBidView 1 1 demoEvent
          (optimisticApply { currentBid := 10, bidHistory := [] } 12 "Me" 600))).bidHistory ≠
      [demoEvent] := by
  decide

/-- C7 amended: on rejection or error the marketplace client rolls back
locally — it restores the captured pre-submission product state and
removes the head (most recently prepended) bid-history entry; with an
interleaved live event this keeps the rejected entry and discards the
live one. It does not re-pull an authoritative snapshot. -/
theorem failure_rollback_is_local_head_drop :
    (∀ (captured v : ClientView) (amt : Nat) (nm : String) (now : Nat),
      failureRollback captured (optimisticApply v amt nm now) =
        { currentBid := captured.currentBid, bidHistory := v.bidHistory }) ∧
    (∀ (captured v : ClientView) (amt : Nat) (nm : String) (now viewId : Nat)
        (e : ClientBidEntry),
      failureRollback captured
          (mpHandleBidView viewId viewId e (optimisticApply v amt nm now)) =
        { currentBid := captured.currentBid,
          bidHistory :=
            { amount := amt, bidder := nm, timestamp := now } :: v.bidHistory }) := by
  refine ⟨fun captured v amt nm now => rfl, ?_⟩
  intro captured v amt nm now viewId e
  simp [failureRollback, mpHandleBidView, optimisticApply]

/-- C8 counterexample: the snapshot read (`getAuctionWithBids`, which runs
`updateStatus()` and saves the result) moves a cancelled auction whose
time window is still open back to `active` — a backward status
transition the claim rules out. -/
theorem snapshot_read_reactivates_cancelled_auction :
    cancelledAuction.status = Status.cancelled ∧
    (getAuctionWithBids cancelledAuction [] 500).1.status = Status.active := by
  decide

/-! #### Lemmas about the Lifecycle Scheduler sweep -/

theorem fieldPres_id : FieldPres id := fun _ => ⟨rfl, rfl, rfl⟩

theorem fieldPres_comp {f g : Bid → Bid} (hf : FieldPres f) (hg : FieldPres g) :
    FieldPres (g ∘ f) := by
  intro b
  obtain ⟨h1, h2, h3⟩ := hf b
  obtain ⟨g1, g2, g3⟩ := hg (f b)
  exact ⟨g1.trans h1, g2.trans h2, g3.trans h3⟩

theorem fieldPres_flag (w : Nat) :
    FieldPres (fun b => if b.id = w then { b with isWinningBid := true } else b) := by
  intro b
  by_cases h : b.id = w <;> simp [h]

theorem bidsForAuction_map {f : Bid → Bid} (hf : FieldPres f)
    (l : List Bid) (aId : Nat) :
    bidsForAuction (l.map f) aId = (bidsForAuction l aId).map f := by
  unfold bidsForAuction
  rw [List.filter_map]
  congr 1
  apply List.filter_congr
  intro b _
  simp [Function.comp, (hf b).2.1]

theorem selBetter_map {f : Bid → Bid} (hf : FieldPres f) (acc : Option Bid)
    (b : Bid) : selBetter (acc.map f) (f b) = (selBetter acc b).map f := by
  cases acc with
  | none => rfl
  | some m =>
    simp only [selBetter, Option.map_some']
    rw [(hf b).2.2, (hf m).2.2]
    by_cases h : b.amount > m.amount <;> simp [h]

theorem selFold_map {f : Bid → Bid} (hf : FieldPres f) :
    ∀ (l : List Bid) (acc : Option Bid),
      (l.map f).foldl selBetter (acc.map f) = (l.foldl selBetter acc).map f
  | [], _ => rfl
  | b :: rest, acc => by
    rw [List.map_cons, List.foldl_cons, List.foldl_cons, selBetter_map hf]
    exact selFold_map hf rest (selBetter acc b)

theorem highestBid_map {f : Bid → Bid} (hf : FieldPres f) (l : List Bid)
    (aId : Nat) : highestBid (l.map f) aId = (highestBid l aId).map f := by
  unfold highestBid
  rw [bidsForAuction_map hf]
  exact selFold_map hf (bidsForAuction l aId) none

theorem closeStep_bids_map (st : Store) (a : Auction) :
    ∃ g : Bid → Bid, FieldPres g ∧ (closeStep st a).bids = st.bids.map g := by
  unfold closeStep
  cases h : highestBid st.bids a.id with
  | none => exact ⟨id, fieldPres_id, by simp⟩
  | some hb => exact ⟨_, fieldPres_flag hb.id, by simp⟩

theorem closedAuction_id (st : Store) (a : Auction) :
    (closedAuction st a).id = a.id := by
  unfold closedAuction
  cases highestBid st.bids a.id <;> rfl

theorem closedAuction_status (st : Store) (a : Auction) :
    (closedAuction st a).status = Status.completed := by
  unfold closedAuction
  cases highestBid st.bids a.id <;> rfl

theorem closedAuction_winningBid (st : Store) (a : Auction) :
    (closedAuction st a).winningBid =
      (match highestBid st.bids a.id with
        | none => a.winningBid
        | some hb => some hb.id) := by
  unfold closedAuction
  cases highestBid st.bids a.id <;> rfl

theorem closedAuction_mem {st : Store} {a : Auction} (ha : a ∈ st.auctions) :
    closedAuction st a ∈ (closeStep st a).auctions :=
  List.mem_map.mpr ⟨a, ha, by simp⟩

theorem closeStep_preserves_mem {st : Store} {a x : Auction}
    (hx : x ∈ st.auctions) (hne : x.id ≠ a.id) :
    x ∈ (closeStep st a).auctions :=
  List.mem_map.mpr ⟨x, hx, by simp [hne]⟩

theorem foldl_closeStep_preserves_mem :
    ∀ (l : List Auction) (st : Store) (x : Auction),
      x ∈ st.auctions → (∀ b ∈ l, x.id ≠ b.id) →
      x ∈ (l.foldl closeStep st).auctions
  | [], _, _, hx, _ => hx
  | a :: rest, st, x, hx, hne => by
    rw [List.foldl_cons]
    exact foldl_closeStep_preserves_mem rest _ x
      (closeStep_preserves_mem hx (hne a (List.mem_cons_self a rest)))
      (fun b hb => hne b (List.mem_cons_of_mem a hb))

theorem mem_closeStep_auctions {st : Store} {a x : Auction}
    (hx : x ∈ (closeStep st a).auctions) :
    x.status = Status.completed ∨ (x ∈ st.auctions ∧ x.id ≠ a.id) := by
  obtain ⟨y, hy, rfl⟩ := List.mem_map.mp hx
  by_cases h : y.id = a.id
  · rw [if_pos h]
    exact Or.inl (closedAuction_status st a)
  · rw [if_neg h]
    exact Or.inr ⟨hy, h⟩

theorem mem_foldl_closeStep :
    ∀ (l : List Auction) (st : Store) (x : Auction),
      x ∈ (l.foldl closeStep st).auctions →
      x.status = Status.completed ∨ (x ∈ st.auctions ∧ ∀ a ∈ l, x.id ≠ a.id)
  | [], _, _, hx => Or.inr ⟨hx, by simp⟩
  | a :: rest, st, x, hx => by
    rw [List.foldl_cons] at hx
    rcases mem_foldl_closeStep rest _ x hx with h | ⟨hmem, hne⟩
    · exact Or.inl h
    · rcases mem_closeStep_auctions hmem with h | ⟨hmem', hne'⟩
      · exact Or.inl h
      · refine Or.inr ⟨hmem', fun b hb => ?_⟩
        rcases List.mem_cons.mp hb with rfl | hb'
        · exact hne'
        · exact hne b hb'

theorem foldl_closeStep_closes :
    ∀ (l : List Auction) (st : Store) (f : Bid → Bid) (bids0 : List Bid),
      FieldPres f → st.bids = bids0.map f →
      (∀ a ∈ l, a ∈ st.auctions) →
      l.Pairwise (fun a b => a.id ≠ b.id) →
      ∀ a ∈ l, ∃ x ∈ (l.foldl closeStep st).auctions,
        x.id = a.id ∧ x.status = Status.completed ∧
        x.winningBid = (match highestBid bids0 a.id with
          | none => a.winningBid
          | some hb => some hb.id)
  | [], _, _, _, _, _, _, _ => fun a ha => absurd ha (List.not_mem_nil a)
  | a :: rest, st, f, bids0, hf, hbids, hsub, hpw => by
    intro b hb
    rw [List.foldl_cons]
    rcases List.mem_cons.mp hb with rfl | hbrest
    · refine ⟨closedAuction st b, ?_, closedAuction_id st b,
        closedAuction_status st b, ?_⟩
      · apply foldl_closeStep_preserves_mem rest (closeStep st b) _
          (closedAuction_mem (hsub b (List.mem_cons_self b rest)))
        intro c hc
        rw [closedAuction_id st b]
        exact (List.pairwise_cons.mp hpw).1 c hc
      · rw [closedAuction_winningBid, hbids, highestBid_map hf]
        cases highestBid bids0 b.id with
        | none => rfl
        | some hb0 => simp [(hf hb0).1]
    · obtain ⟨g, hg, hstbids⟩ := closeStep_bids_map st a
      apply foldl_closeStep_closes rest (closeStep st a) (g ∘ f) bids0
        (fieldPres_comp hf hg)
        (by rw [hstbids, hbids, List.map_map])
        (fun c hc => closeStep_preserves_mem (hsub c (List.mem_cons_of_mem a hc))
          (fun hcid => ((List.pairwise_cons.mp hpw).1 c hc) hcid.symm))
        (List.pairwise_cons.mp hpw).2
        b hbrest

/-- C6: a single sweep of `closeEndedAuctions` completes every active
auction whose `endBidTime` has passed, setting its `winningBid` to the
id of its highest committed bid (and leaving it untouched — hence still
null — when the auction has no bids); auctions that do not match
(including already-completed ones) are preserved verbatim; and running
the sweep again immediately on the result matches nothing, so it returns
the same state with a closed count of 0. -/
theorem scheduler_sweep_closes_and_is_idempotent
    (s : Store) (now : Nat)
    (hids : (s.auctions.map Auction.id).Nodup) :
    (∀ a ∈ s.auctions, auctionMatched now a = true →
      ∃ x ∈ (closeEndedAuctions s now).1.auctions,
        x.id = a.id ∧ x.status = Status.completed ∧
        x.winningBid = (match highestBid s.bids a.id with
          | none => a.winningBid
          | some hb => some hb.id)) ∧
    (∀ a ∈ s.auctions, auctionMatched now a = false →
      a ∈ (closeEndedAuctions s now).1.auctions) ∧
    closeEndedAuctions (closeEndedAuctions s now).1 now =
      ((closeEndedAuctions s now).1, 0) := by
  have hpw : s.auctions.Pairwise (fun a b => a.id ≠ b.id) :=
    (List.pairwise_map.mp hids)
  have hinj := List.inj_on_of_nodup_map hids
  refine ⟨?_, ?_, ?_⟩
  · intro a ha hm
    have hamem : a ∈ s.auctions.filter (auctionMatched now) :=
      List.mem_filter.mpr ⟨ha, hm⟩
    exact foldl_closeStep_closes (s.auctions.filter (auctionMatched now)) s id
      s.bids fieldPres_id (by simp)
      (fun c hc => List.mem_of_mem_filter hc)
      (List.Pairwise.filter _ hpw) a hamem
  · intro a ha hm
    apply foldl_closeStep_preserves_mem _ s a ha
    intro b hb hab
    have hbmem := List.mem_of_mem_filter hb
    have : a = b := hinj ha hbmem hab
    subst this
    rw [(List.mem_filter.mp hb).2] at hm
    exact Bool.noConfusion hm
  · have hnone : ∀ x ∈ (closeEndedAuctions s now).1.auctions,
        ¬ auctionMatched now x = true := by
      intro x hx hxm
      rcases mem_foldl_closeStep _ s x hx with h | ⟨hmem, hne⟩
      · unfold auctionMatched at hxm
        rw [h] at hxm
        simp at hxm
      · exact hne x (List.mem_filter.mpr ⟨hmem, hxm⟩) rfl
    have hfil : (closeEndedAuctions s now).1.auctions.filter
        (auctionMatched now) = [] :=
      List.filter_eq_nil_iff.mpr hnone
    show ((((closeEndedAuctions s now).1.auctions.filter
        (auctionMatched now)).foldl closeStep (closeEndedAuctions s now).1),
      ((closeEndedAuctions s now).1.auctions.filter (auctionMatched now)).length)
      = ((closeEndedAuctions s now).1, 0)
    rw [hfil]
    rfl

/-- C6 witness: the sweep at clock 200 over `sweepStore` closes the
expired `endedAuction` (id 2) with `winningBid` the highest bid (id 61),
preserves the still-open `demoAuction`, and a second sweep is a no-op. -/
theorem scheduler_sweep_witness :
    (∃ x ∈ (closeEndedAuctions sweepStore 200).1.auctions,
      x.id = endedAuction.id ∧ x.status = Status.completed ∧
      x.winningBid = (match highestBid sweepStore.bids endedAuction.id with
        | none => endedAuction.winningBid
        | some hb => some hb.id)) ∧
    demoAuction ∈ (closeEndedAuctions sweepStore 200).1.auctions ∧
    closeEndedAuctions (closeEndedAuctions sweepStore 200).1 200 =
      ((closeEndedAuctions sweepStore 200).1, 0) := by
  have h := scheduler_sweep_closes_and_is_idempotent sweepStore 200 (by decide)
  exact ⟨h.1 endedAuction (by decide) (by decide),
    h.2.1 demoAuction (by decide) (by decide), h.2.2⟩

/-- C8 amended: the bid commit (`placeBid`) leaves the status of an
accepted auction unchanged, and the scheduler sweep only ever writes
`completed` (any other record it returns is an untouched original) — but
the snapshot read's `updateStatus` recomputes status purely from the
clock, ignoring the stored status, which is what lets a cancelled
auction be moved back to active or pending. -/
theorem status_never_regresses_except_snapshot_read :
    (∀ (a : Auction) (amount userId : Nat) (name : String) (now bidId : Nat)
        (bid : Bid) (a' : Auction),
      placeBid a amount userId name now bidId = Except.ok (bid, a') →
      a'.status = a.status) ∧
    (∀ (s : Store) (now : Nat) (x : Auction),
      x ∈ (closeEndedAuctions s now).1.auctions →
      x.status = Status.completed ∨ x ∈ s.auctions) ∧
    (∀ (a : Auction) (now : Nat),
      (a.updateStatus now).status =
        (if now < a.startBidTime then Status.pending
         else if now > a.endBidTime then Status.completed
         else Status.active)) := by
  refine ⟨?_, ?_, ?_⟩
  · intro a amount userId name now bidId bid a' h
    unfold placeBid at h
    split at h
    · exact absurd h (by simp)
    · split at h
      · exact absurd h (by simp)
      · rename_i hEnd hLow
        simp only [Except.ok.injEq, Prod.mk.injEq] at h
        obtain ⟨-, ha'⟩ := h
        subst ha'
        unfold Auction.recordBid
        simp only [Auction.hasEnded, decide_eq_true_eq] at hEnd ⊢
        simp [hEnd]
  · intro s now x hx
    rcases mem_foldl_closeStep _ s x hx with h | ⟨hmem, -⟩
    · exact Or.inl h
    · exact Or.inr hmem
  · intro a now
    by_cases h1 : now < a.startBidTime
    · simp [Auction.updateStatus, h1]
    · by_cases h2 : now > a.endBidTime <;>
        simp [Auction.updateStatus, h1, h2]

/-- C8 witness: the amended transition facts evaluated at `demoAuction`
(an accepted commit at clock 500), `demoStore` (a sweep that touches
nothing), and `cancelledAuction` (the time-only recomputation). -/
theorem status_transitions_witness :
    (demoAuction.recordBid 99 12 7 500).status = demoAuction.status ∧
    (demoAuction.status = Status.completed ∨ demoAuction ∈ demoStore.auctions) ∧
    (cancelledAuction.updateStatus 500).status =
      (if (500 : Nat) < cancelledAuction.startBidTime then Status.pending
       else if (500 : Nat) > cancelledAuction.endBidTime then Status.completed
       else Status.active) := by
  have h := status_never_regresses_except_snapshot_read
  exact ⟨h.1 demoAuction 12 7 "Bob" 500 99 _ _ rfl,
    h.2.1 demoStore 500 demoAuction (by decide),
    h.2.2 cancelledAuction 500⟩

/-! #### Lemmas about the capped bid-history views -/

theorem recentBidsView_length_le (bids : List Bid) (aId : Nat) :
    (recentBidsView bids aId).length ≤ 50 := by
  unfold recentBidsView
  rw [List.length_take]
  exact min_le_left _ _

theorem recentBidsView_sorted (bids : List Bid) (aId : Nat) :
    List.Sorted tsGe (recentBidsView bids aId) :=
  (List.sorted_insertionSort tsGe (bidsForAuction bids aId)).sublist
    (List.take_sublist _ _)

theorem recentBidsView_drops_only_older (bids : List Bid) (aId : Nat) :
    ∀ b ∈ bidsForAuction bids aId, b ∉ recentBidsView bids aId →
      ∀ k ∈ recentBidsView bids aId, b.timestamp ≤ k.timestamp := by
  intro b hb hnot k hk
  set L := List.insertionSort tsGe (bidsForAuction bids aId) with hL
  have hbL : b ∈ L := (List.perm_insertionSort tsGe _).symm.subset hb
  have hsplit : L.take 50 ++ L.drop 50 = L := List.take_append_drop 50 L
  have hpw : List.Pairwise tsGe L := List.sorted_insertionSort tsGe _
  rw [← hsplit] at hpw
  have hcross := (List.pairwise_append.mp hpw).2.2
  have hbdrop : b ∈ L.drop 50 := by
    rcases List.mem_append.mp (hsplit.symm ▸ hbL) with h | h
    · exact absurd h hnot
    · exact h
  exact hcross k hk b hbdrop

/-- C10: every server-produced history view is capped at the 50 most
recent entries, newest first. The database views (`auction:getState`,
`broadcastAuctionState`, `getAuctionWithBids`) all take the first 50 of
the timestamp-descending sort, so they have at most 50 entries, are
sorted newest-first, and any dropped bid is no newer than every kept
one; the `getState` fallback stays capped whenever the cache history is
capped; and the handler's cache update prepends the new entry and trims
to exactly the first 50. -/
theorem bid_history_views_capped_at_50 (bids : List Bid) (aId : Nat)
    (a : Auction) (now : Nat) (cached : List HistEntry) (e : HistEntry)
    (h : List HistEntry) (hc : cached.length ≤ 50) :
    (broadcastBidHistory bids aId).length ≤ 50 ∧
    List.Sorted histTsGe (broadcastBidHistory bids aId) ∧
    (∀ b ∈ bidsForAuction bids aId, b ∉ recentBidsView bids aId →
      ∀ k ∈ recentBidsView bids aId, b.timestamp ≤ k.timestamp) ∧
    (getStateBidHistory bids aId cached).length ≤ 50 ∧
    (getAuctionWithBids a bids now).2 = recentBidsView bids a.id ∧
    cachePushHistory e h = (e :: h).take 50 ∧
    (cachePushHistory e h).length ≤ 50 := by
  refine ⟨?_, ?_, recentBidsView_drops_only_older bids aId, ?_, rfl, ?_, ?_⟩
  · unfold broadcastBidHistory
    rw [List.length_map]
    exact recentBidsView_length_le bids aId
  · unfold broadcastBidHistory
    exact List.pairwise_map.mpr (recentBidsView_sorted bids aId)
  · show (if (broadcastBidHistory bids aId).length > 0
        then broadcastBidHistory bids aId else cached).length ≤ 50
    split
    · unfold broadcastBidHistory
      rw [List.length_map]
      exact recentBidsView_length_le bids aId
    · exact hc
  · unfold cachePushHistory
    by_cases hlen : (e :: h).length > 50
    · simp [hlen]
    · rw [if_neg hlen]
      rw [List.take_of_length_le (Nat.le_of_not_lt hlen)]
  · show (if (e :: h).length > 50
        then (e :: h).take 50 else e :: h).length ≤ 50
    split
    · rw [List.length_take]
      exact min_le_left _ _
    · rename_i hlen
      exact Nat.le_of_not_lt hlen

/-- C10 witness: the capped-view facts evaluated for `sweepStore`'s bids
on auction 2, an empty cache history, and a cache push of `demoHist`. -/
theorem bid_history_views_witness :
    (broadcastBidHistory sweepStore.bids 2).length ≤ 50 ∧
    List.Sorted histTsGe (broadcastBidHistory sweepStore.bids 2) ∧
    (∀ b ∈ bidsForAuction sweepStore.bids 2,
      b ∉ recentBidsView sweepStore.bids 2 →
      ∀ k ∈ recentBidsView sweepStore.bids 2, b.timestamp ≤ k.timestamp) ∧
    (getStateBidHistory sweepStore.bids 2 []).length ≤ 50 ∧
    (getAuctionWithBids endedAuction sweepStore.bids 200).2 =
      recentBidsView sweepStore.bids endedAuction.id ∧
    cachePushHistory demoHist [] = (demoHist :: []).take 50 ∧
    (cachePushHistory demoHist []).length ≤ 50 :=
  bid_history_views_capped_at_50 sweepStore.bids 2 endedAuction 200 [] demoHist
    [] (by decide)

/-! #### Association-list lemmas for the room bookkeeping -/

theorem alGet_cons_self {α : Type} (k : Nat) (v : α) (rest : List (Nat × α)) :
    alGet ((k, v) :: rest) k = some v := by
  simp [alGet]

theorem alGet_cons_other {α : Type} {p : Nat × α} {k : Nat} (h : p.1 ≠ k)
    (rest : List (Nat × α)) : alGet (p :: rest) k = alGet rest k := by
  simp [alGet, List.find?_cons, h]

theorem alGet_alSet_self {α : Type} (k : Nat) (v : α) :
    ∀ m : List (Nat × α), alGet (alSet k v m) k = some v
  | [] => alGet_cons_self k v []
  | p :: rest => by
    by_cases h : p.1 = k
    · rw [alSet, if_pos h]
      exact alGet_cons_self k v rest
    · rw [alSet, if_neg h, alGet_cons_other h]
      exact alGet_alSet_self k v rest

theorem alGet_cons_fst {α : Type} (p : Nat × α) (rest : List (Nat × α)) :
    alGet (p :: rest) p.1 = some p.2 := by
  simp [alGet]

theorem alGet_alSet_other {α : Type} {k x : Nat} (h : x ≠ k) (v : α) :
    ∀ m : List (Nat × α), alGet (alSet k v m) x = alGet m x
  | [] => by
    rw [alSet]
    exact alGet_cons_other (fun hk => h hk.symm) []
  | p :: rest => by
    by_cases hp : p.1 = k
    · rw [alSet, if_pos hp, alGet_cons_other (fun hk => h hk.symm),
        alGet_cons_other (by rw [hp]; exact fun hk => h hk.symm)]
    · rw [alSet, if_neg hp]
      by_cases hx : p.1 = x
      · rw [← hx, alGet_cons_fst, alGet_cons_fst]
      · rw [alGet_cons_other hx, alGet_cons_other hx]
        exact alGet_alSet_other h v rest

theorem alDel_cons_self {α : Type} {p : Nat × α} {k : Nat} (h : p.1 = k)
    (rest : List (Nat × α)) : alDel k (p :: rest) = alDel k rest := by
  simp [alDel, List.filter_cons, h]

theorem alDel_cons_other {α : Type} {p : Nat × α} {k : Nat} (h : ¬p.1 = k)
    (rest : List (Nat × α)) : alDel k (p :: rest) = p :: alDel k rest := by
  simp [alDel, List.filter_cons, h]

theorem alGet_alDel_self {α : Type} (k : Nat) :
    ∀ m : List (Nat × α), alGet (alDel k m) k = none
  | [] => rfl
  | p :: rest => by
    by_cases h : p.1 = k
    · rw [alDel_cons_self h]
      exact alGet_alDel_self k rest
    · rw [alDel_cons_other h, alGet_cons_other h]
      exact alGet_alDel_self k rest

theorem alGet_alDel_other {α : Type} {k x : Nat} (h : x ≠ k) :
    ∀ m : List (Nat × α), alGet (alDel k m) x = alGet m x
  | [] => rfl
  | p :: rest => by
    by_cases hp : p.1 = k
    · rw [alDel_cons_self hp, alGet_cons_other (by rw [hp]; exact fun hk => h hk.symm)]
      exact alGet_alDel_other h rest
    · rw [alDel_cons_other hp]
      by_cases hx : p.1 = x
      · rw [← hx, alGet_cons_fst, alGet_cons_fst]
      · rw [alGet_cons_other hx, alGet_cons_other hx]
        exact alGet_alDel_other h rest

theorem alGet_mem {α : Type} {m : List (Nat × α)} {k : Nat} {v : α}
    (h : alGet m k = some v) : (k, v) ∈ m := by
  unfold alGet at h
  cases hf : m.find? (fun p => p.1 == k) with
  | none => rw [hf] at h; exact absurd h (by simp)
  | some p =>
    rw [hf] at h
    have hp := List.find?_some hf
    have hm := List.mem_of_find?_eq_some hf
    have hk : p.1 = k := by simpa using hp
    have hv : p.2 = v := by simpa using h
    have : p = (k, v) := Prod.ext hk hv
    rwa [this] at hm

theorem disconnectStep_none {c : Nat} {st : RoomsState} {a : Nat}
    (h : alGet st.rooms a = none) : disconnectStep c st a = st := by
  unfold disconnectStep
  rw [h]

theorem disconnectStep_eq_ite {c : Nat} {st : RoomsState} {a : Nat}
    {members : List Nat} (h : alGet st.rooms a = some members) :
    disconnectStep c st a =
      if (members.filter (fun m => m ≠ c)).length = 0 then
        { st with rooms := alDel a st.rooms,
                  db := alSet a (members.filter (fun m => m ≠ c)).length st.db }
      else
        { st with rooms := alSet a (members.filter (fun m => m ≠ c)) st.rooms,
                  db := alSet a (members.filter (fun m => m ≠ c)).length st.db } := by
  unfold disconnectStep
  rw [h]

theorem disconnectStep_some_zero {c : Nat} {st : RoomsState} {a : Nat}
    {members : List Nat} (h : alGet st.rooms a = some members)
    (hz : (members.filter (fun m => m ≠ c)).length = 0) :
    disconnectStep c st a =
      { st with rooms := alDel a st.rooms,
                db := alSet a (members.filter (fun m => m ≠ c)).length st.db } := by
  rw [disconnectStep_eq_ite h, if_pos hz]

theorem disconnectStep_some_pos {c : Nat} {st : RoomsState} {a : Nat}
    {members : List Nat} (h : alGet st.rooms a = some members)
    (hz : ¬(members.filter (fun m => m ≠ c)).length = 0) :
    disconnectStep c st a =
      { st with rooms := alSet a (members.filter (fun m => m ≠ c)) st.rooms,
                db := alSet a (members.filter (fun m => m ≠ c)).length st.db } := by
  rw [disconnectStep_eq_ite h, if_neg hz]

theorem leaveRoom_eq_ite {s : RoomsState} {c a : Nat} {members : List Nat}
    (h : alGet s.rooms a = some members) :
    leaveRoom s c a =
      if (members.filter (fun m => m ≠ c)).length = 0 then
        { users := userRoomsAfterLeave s c a, rooms := alDel a s.rooms,
          db := alSet a (members.filter (fun m => m ≠ c)).length s.db }
      else
        { users := userRoomsAfterLeave s c a,
          rooms := alSet a (members.filter (fun m => m ≠ c)) s.rooms,
          db := alSet a (members.filter (fun m => m ≠ c)).length s.db } := by
  unfold leaveRoom
  rw [h]

theorem leaveRoom_some_zero {s : RoomsState} {c a : Nat} {members : List Nat}
    (h : alGet s.rooms a = some members)
    (hz : (members.filter (fun m => m ≠ c)).length = 0) :
    leaveRoom s c a =
      { users := userRoomsAfterLeave s c a, rooms := alDel a s.rooms,
        db := alSet a (members.filter (fun m => m ≠ c)).length s.db } := by
  rw [leaveRoom_eq_ite h, if_pos hz]

theorem leaveRoom_some_pos {s : RoomsState} {c a : Nat} {members : List Nat}
    (h : alGet s.rooms a = some members)
    (hz : ¬(members.filter (fun m => m ≠ c)).length = 0) :
    leaveRoom s c a =
      { users := userRoomsAfterLeave s c a,
        rooms := alSet a (members.filter (fun m => m ≠ c)) s.rooms,
        db := alSet a (members.filter (fun m => m ≠ c)).length s.db } := by
  rw [leaveRoom_eq_ite h, if_neg hz]

theorem disconnectStep_untouched (c : Nat) (st : RoomsState) {b x : Nat}
    (h : x ≠ b) :
    alGet (disconnectStep c st b).rooms x = alGet st.rooms x ∧
    alGet (disconnectStep c st b).db x = alGet st.db x := by
  cases hg : alGet st.rooms b with
  | none => rw [disconnectStep_none hg]; exact ⟨rfl, rfl⟩
  | some members =>
    by_cases hz : (members.filter (fun m => m ≠ c)).length = 0
    · rw [disconnectStep_some_zero hg hz]
      exact ⟨alGet_alDel_other h _, alGet_alSet_other h _ _⟩
    · rw [disconnectStep_some_pos hg hz]
      exact ⟨alGet_alSet_other h _ _, alGet_alSet_other h _ _⟩

theorem foldl_disconnectStep_untouched (c : Nat) :
    ∀ (l : List Nat) (st : RoomsState) (x : Nat), x ∉ l →
      alGet (l.foldl (disconnectStep c) st).rooms x = alGet st.rooms x ∧
      alGet (l.foldl (disconnectStep c) st).db x = alGet st.db x
  | [], _, _, _ => ⟨rfl, rfl⟩
  | b :: rest, st, x, hx => by
    rw [List.foldl_cons]
    have hxb : x ≠ b := fun h => hx (h ▸ List.mem_cons_self b rest)
    have hrest : x ∉ rest := fun h => hx (List.mem_cons_of_mem b h)
    obtain ⟨h1, h2⟩ :=
      foldl_disconnectStep_untouched c rest (disconnectStep c st b) x hrest
    obtain ⟨g1, g2⟩ := disconnectStep_untouched c st hxb
    exact ⟨h1.trans g1, h2.trans g2⟩

theorem foldl_disconnectStep_processed (c : Nat) :
    ∀ (l : List Nat) (st : RoomsState) (a : Nat), a ∈ l → l.Nodup →
      (alGet (l.foldl (disconnectStep c) st).rooms a = alGet st.rooms a ∧
       alGet (l.foldl (disconnectStep c) st).db a = alGet st.db a ∧
       alGet st.rooms a = none) ∨
      (∃ members, alGet st.rooms a = some members ∧
       alGet (l.foldl (disconnectStep c) st).db a =
         some (members.filter (fun m => m ≠ c)).length ∧
       (((members.filter (fun m => m ≠ c)).length = 0 ∧
          alGet (l.foldl (disconnectStep c) st).rooms a = none) ∨
        alGet (l.foldl (disconnectStep c) st).rooms a =
          some (members.filter (fun m => m ≠ c))))
  | [], _, a, ha, _ => absurd ha (List.not_mem_nil a)
  | b :: rest, st, a, ha, hnd => by
    rw [List.foldl_cons]
    have hbrest : b ∉ rest := (List.nodup_cons.mp hnd).1
    have hndrest : rest.Nodup := (List.nodup_cons.mp hnd).2
    rcases List.mem_cons.mp ha with rfl | harest
    · -- a is the room processed by this step; the rest leave it untouched
      obtain ⟨hu1, hu2⟩ :=
        foldl_disconnectStep_untouched c rest (disconnectStep c st a) a hbrest
      rw [hu1, hu2]
      cases hg : alGet st.rooms a with
      | none =>
        rw [disconnectStep_none hg]
        exact Or.inl ⟨hg, rfl, rfl⟩
      | some members =>
        refine Or.inr ⟨members, rfl, ?_⟩
        by_cases hz : (members.filter (fun m => m ≠ c)).length = 0
        · rw [disconnectStep_some_zero hg hz]
          exact ⟨alGet_alSet_self _ _ _, Or.inl ⟨hz, alGet_alDel_self _ _⟩⟩
        · rw [disconnectStep_some_pos hg hz]
          exact ⟨alGet_alSet_self _ _ _, Or.inr (alGet_alSet_self _ _ _)⟩
    · -- a is processed later; this step does not touch it
      have hab : a ≠ b := fun h => hbrest (h ▸ harest)
      obtain ⟨g1, g2⟩ := disconnectStep_untouched c st hab
      rcases foldl_disconnectStep_processed c rest (disconnectStep c st b) a
          harest hndrest with ⟨h1, h2, h3⟩ | ⟨members, hm, hdb, hrooms⟩
      · exact Or.inl ⟨h1.trans g1, h2.trans g2, g1 ▸ h3⟩
      · exact Or.inr ⟨members, g1 ▸ hm, hdb, hrooms⟩

/-- C9: room membership is a per-auction set of connection ids. A join
for a connection already in the room leaves the membership unchanged and
returns the current count; every join persists a participant count equal
to the room's member count; a leave removes the connection and persists
the new count (a room emptied by the leave is torn down, its count
persisted as 0); and a raw disconnect removes the connection from every
room it was in — without an explicit leave — persisting each affected
room's count (given the handler bookkeeping invariant that a connection
appears in a room only if the room is on its tracked list, with no
duplicate entries). -/
theorem room_membership_contract (s : RoomsState) (c a : Nat) :
    (c ∈ (alGet s.rooms a).getD [] →
      alGet (joinRoom s c a).1.rooms a = alGet s.rooms a ∧
      (joinRoom s c a).2 = ((alGet s.rooms a).getD []).length) ∧
    ((joinRoom s c a).2 = ((alGet (joinRoom s c a).1.rooms a).getD []).length ∧
     alGet (joinRoom s c a).1.db a =
       some (((alGet (joinRoom s c a).1.rooms a).getD []).length)) ∧
    ((alGet s.rooms a).isSome = true →
      c ∉ (alGet (leaveRoom s c a).rooms a).getD [] ∧
      alGet (leaveRoom s c a).db a =
        some (((alGet (leaveRoom s c a).rooms a).getD []).length)) ∧
    ((∀ p ∈ s.rooms, c ∈ p.2 → p.1 ∈ (alGet s.users c).getD []) →
     ((alGet s.users c).getD []).Nodup →
      (∀ x : Nat, c ∉ (alGet (disconnectUser s c).rooms x).getD []) ∧
      (∀ x ∈ (alGet s.users c).getD [], (alGet s.rooms x).isSome = true →
        alGet (disconnectUser s c).db x =
          some (((alGet (disconnectUser s c).rooms x).getD []).length))) := by
  refine ⟨?_, ?_, ?_, ?_⟩
  · intro hc
    cases hg : alGet s.rooms a with
    | none =>
      rw [hg] at hc
      exact absurd hc (List.not_mem_nil c)
    | some members =>
      rw [hg] at hc
      have hc' : c ∈ members := hc
      have hadd : addMem c ((alGet s.rooms a).getD []) = members := by
        rw [hg]
        show addMem c members = members
        unfold addMem
        exact if_pos hc'
      constructor
      · show alGet (alSet a (addMem c ((alGet s.rooms a).getD [])) s.rooms) a =
          some members
        rw [alGet_alSet_self, hadd]
      · show (addMem c ((alGet s.rooms a).getD [])).length =
          ((some members).getD []).length
        rw [hadd]
        rfl
  · constructor
    · show (addMem c ((alGet s.rooms a).getD [])).length =
        ((alGet (alSet a (addMem c ((alGet s.rooms a).getD [])) s.rooms) a).getD []).length
      rw [alGet_alSet_self]
      rfl
    · show alGet (alSet a (addMem c ((alGet s.rooms a).getD [])).length s.db) a =
        some (((alGet (alSet a (addMem c ((alGet s.rooms a).getD [])) s.rooms) a).getD []).length)
      rw [alGet_alSet_self, alGet_alSet_self]
      rfl
  · intro hsome
    cases hg : alGet s.rooms a with
    | none =>
      rw [hg] at hsome
      exact absurd hsome (by simp)
    | some members =>
      by_cases hz : (members.filter (fun m => m ≠ c)).length = 0
      · rw [leaveRoom_some_zero hg hz]
        constructor
        · show c ∉ (alGet (alDel a s.rooms) a).getD []
          rw [alGet_alDel_self]
          exact List.not_mem_nil c
        · show alGet (alSet a (members.filter (fun m => m ≠ c)).length s.db) a =
            some (((alGet (alDel a s.rooms) a).getD []).length)
          rw [alGet_alSet_self, alGet_alDel_self, hz]
          rfl
      · rw [leaveRoom_some_pos hg hz]
        constructor
        · show c ∉ (alGet (alSet a (members.filter (fun m => m ≠ c)) s.rooms) a).getD []
          rw [alGet_alSet_self]
          intro hcm
          have := (List.mem_filter.mp hcm).2
          simp at this
        · show alGet (alSet a (members.filter (fun m => m ≠ c)).length s.db) a =
            some (((alGet (alSet a (members.filter (fun m => m ≠ c)) s.rooms) a).getD []).length)
          rw [alGet_alSet_self, alGet_alSet_self]
          rfl
  · intro hInv hnd
    constructor
    · intro x
      show c ∉ (alGet (((alGet s.users c).getD []).foldl (disconnectStep c)
        { s with users := alDel c s.users }).rooms x).getD []
      by_cases hx : x ∈ (alGet s.users c).getD []
      · rcases foldl_disconnectStep_processed c ((alGet s.users c).getD [])
            { s with users := alDel c s.users } x hx hnd with
          ⟨h1, -, h3⟩ | ⟨members, -, -, hrooms⟩
        · rw [h1, h3]
          exact List.not_mem_nil c
        · rcases hrooms with ⟨-, hnone⟩ | hsome
          · rw [hnone]
            exact List.not_mem_nil c
          · rw [hsome]
            intro hcm
            have := (List.mem_filter.mp hcm).2
            simp at this
      · obtain ⟨h1, -⟩ := foldl_disconnectStep_untouched c
          ((alGet s.users c).getD []) { s with users := alDel c s.users } x hx
        rw [h1]
        show c ∉ (alGet s.rooms x).getD []
        cases hgx : alGet s.rooms x with
        | none => exact List.not_mem_nil c
        | some mem =>
          intro hcm
          exact hx (hInv (x, mem) (alGet_mem hgx) hcm)
    · intro x hx hsome
      show alGet (((alGet s.users c).getD []).foldl (disconnectStep c)
          { s with users := alDel c s.users }).db x =
        some (((alGet (((alGet s.users c).getD []).foldl (disconnectStep c)
          { s with users := alDel c s.users }).rooms x).getD []).length)
      rcases foldl_disconnectStep_processed c ((alGet s.users c).getD [])
          { s with users := alDel c s.users } x hx hnd with
        ⟨-, -, h3⟩ | ⟨members, hm, hdb, hrooms⟩
      · have h3' : alGet s.rooms x = none := h3
        rw [h3'] at hsome
        exact absurd hsome (by simp)
      · rw [hdb]
        rcases hrooms with ⟨hz, hnone⟩ | hsome'
        · rw [hnone, hz]
          rfl
        · rw [hsome']
          rfl

theorem recordBid_currentBid (a : Auction) (bidId amount userId now : Nat) :
    (a.recordBid bidId amount userId now).currentBid = amount := by
  unfold Auction.recordBid
  by_cases h : Auction.hasEnded
      { a with currentBid := amount, currentBidder := some userId,
               lastBidTime := some now, totalBids := a.totalBids + 1 } now = true
  · simp only [h, if_true]
  · simp only [h, Bool.false_eq_true, if_false]

theorem placeBid_ok_facts {a : Auction} {amount userId : Nat} {name : String}
    {now bidId : Nat} {bid : Bid} {a' : Auction}
    (h : placeBid a amount userId name now bidId = Except.ok (bid, a')) :
    bid.amount = amount ∧ a'.currentBid = amount ∧ a.currentBid < amount := by
  unfold placeBid at h
  split at h
  · exact absurd h (by simp)
  · split at h
    · exact absurd h (by simp)
    · rename_i hEnd hLow
      simp only [Except.ok.injEq, Prod.mk.injEq] at h
      obtain ⟨hbid, ha'⟩ := h
      subst hbid
      subst ha'
      exact ⟨rfl, recordBid_currentBid a _ amount userId now,
        Nat.lt_of_not_le hLow⟩

theorem getLast_getD_of_cons (x : Nat) (l : List Nat) (d e : Nat) :
    ((x :: l).getLast?).getD d = ((x :: l).getLast?).getD e := by
  induction l generalizing x with
  | nil => simp
  | cons y ys ih =>
    rw [List.getLast?_cons_cons]
    exact ih y

/-- Through the service commit path every accepted (persisted) bid is
strictly greater than the auction's current bid at its commit point, the
accepted amounts form a strictly increasing sequence, and the final
`currentBid` is the last accepted amount (the maximum), or the initial
current bid when nothing was accepted. This is the property the spec
claims of the whole engine; the socket `auction:bid` handler breaks it. -/
theorem processBids_strictly_increasing :
    ∀ (reqs : List BidRequest) (a : Auction) (nextId : Nat),
      List.Chain' (fun x y => x < y)
        ((processBids a reqs nextId).2.map Bid.amount) ∧
      (∀ b ∈ (processBids a reqs nextId).2, a.currentBid < b.amount) ∧
      (processBids a reqs nextId).1.currentBid =
        ((processBids a reqs nextId).2.map Bid.amount).getLast?.getD a.currentBid
  | [], a, nextId => ⟨List.chain'_nil, fun b hb => absurd hb (List.not_mem_nil b), rfl⟩
  | r :: rest, a, nextId => by
    cases h : placeBid a r.amount r.userId "Anonymous" r.now nextId with
    | error e =>
      have hred : processBids a (r :: rest) nextId = processBids a rest nextId := by
        simp only [processBids, h]
      rw [hred]
      exact processBids_strictly_increasing rest a nextId
    | ok pr =>
      obtain ⟨bid, a'⟩ := pr
      have hred : processBids a (r :: rest) nextId =
          ((processBids a' rest (nextId + 1)).1,
           bid :: (processBids a' rest (nextId + 1)).2) := by
        simp only [processBids, h]
      rw [hred]
      dsimp only
      obtain ⟨hamt, hcur, hlt⟩ := placeBid_ok_facts h
      obtain ⟨ih1, ih2, ih3⟩ := processBids_strictly_increasing rest a' (nextId + 1)
      refine ⟨?_, ?_, ?_⟩
      · rw [List.map_cons]
        refine List.chain'_cons'.mpr ⟨?_, ih1⟩
        intro y hy
        rw [hamt, ← hcur]
        cases hres : (processBids a' rest (nextId + 1)).2 with
        | nil => rw [hres] at hy; exact absurd hy (by simp)
        | cons b0 bs =>
          rw [hres] at hy
          simp only [List.map_cons, List.head?_cons, Option.mem_def,
            Option.some.injEq] at hy
          subst hy
          exact ih2 b0 (hres ▸ List.mem_cons_self b0 bs)
      · intro b hb
        rcases List.mem_cons.mp hb with rfl | hb'
        · rw [hamt]; exact hlt
        · exact Nat.lt_trans (hcur ▸ hlt) (ih2 b hb')
      · cases hres : (processBids a' rest (nextId + 1)).2 with
        | nil =>
          rw [hres] at ih3
          simp only [List.map_nil, List.getLast?_nil, Option.getD_none] at ih3
          rw [ih3, hcur, ← hamt]
          simp
        | cons b0 bs =>
          rw [hres] at ih3
          simp only [List.map_cons] at ih3 ⊢
          rw [List.getLast?_cons_cons, ih3]
          exact getLast_getD_of_cons b0.amount (bs.map Bid.amount) a'.currentBid
            a.currentBid

/-- C9 witness: the membership contract evaluated for connection 7 and
auction 1 on `demoRooms`, whose bookkeeping satisfies the tracked-rooms
invariant. -/
theorem room_membership_witness :
    (alGet (joinRoom demoRooms 7 1).1.rooms 1 = alGet demoRooms.rooms 1 ∧
     (joinRoom demoRooms 7 1).2 = ((alGet demoRooms.rooms 1).getD []).length) ∧
    ((joinRoom demoRooms 7 1).2 =
       ((alGet (joinRoom demoRooms 7 1).1.rooms 1).getD []).length ∧
     alGet (joinRoom demoRooms 7 1).1.db 1 =
       some (((alGet (joinRoom demoRooms 7 1).1.rooms 1).getD []).length)) ∧
    (7 ∉ (alGet (leaveRoom demoRooms 7 1).rooms 1).getD [] ∧
     alGet (leaveRoom demoRooms 7 1).db 1 =
       some (((alGet (leaveRoom demoRooms 7 1).rooms 1).getD []).length)) ∧
    ((∀ x : Nat, 7 ∉ (alGet (disconnectUser demoRooms 7).rooms x).getD []) ∧
     (∀ x ∈ (alGet demoRooms.users 7).getD [],
        (alGet demoRooms.rooms x).isSome = true →
        alGet (disconnectUser demoRooms 7).db x =
          some (((alGet (disconnectUser demoRooms 7).rooms x).getD []).length))) := by
  have h := room_membership_contract demoRooms 7 1
  exact ⟨h.1 (by decide), h.2.1, h.2.2.1 (by decide),
    h.2.2.2 (by decide) (by decide)⟩

end Engine
